import Mathlib

/-!
Verification of the RAG-chat plugin core (`main.ts`): the question dispatcher,
the result poller, the document merge strategy and the source-link rendering.
Strings are modelled as `List Char`; the JSON values the handlers manipulate
are modelled by an explicit `JVal` type with JavaScript truthiness.
-/

/-- Character list of a string literal (our model of JS strings). -/
def chars (s : String) : List Char := s.data

/-- The fixed delimiter the merge strategy splits on: `'---'` in
`currentContent.split('---')`. -/
def delim : List Char := ['-', '-', '-']

/-- JavaScript whitespace recognised by `String.prototype.trim` (the common
ASCII part; the code only ever trims markdown text). -/
def isJsSpace (c : Char) : Bool :=
  c = ' ' || c = '\t' || c = '\n' || c = '\r' || c = '\x0b' || c = '\x0c'

/-- Leading-whitespace removal, first half of `trim()`. -/
def trimStart (s : List Char) : List Char := s.dropWhile isJsSpace

/-- Trailing-whitespace removal, second half of `trim()`. -/
def trimEnd (s : List Char) : List Char := (s.reverse.dropWhile isJsSpace).reverse

/-- Model of JavaScript `String.prototype.trim`. -/
def jsTrim (s : List Char) : List Char := trimEnd (trimStart s)

/-- Split at the first occurrence of `delim`: `some (before, after)` when the
delimiter occurs, `none` otherwise.  This is the elementary step from which
`split('---')` is built. -/
def splitFirst : List Char → Option (List Char × List Char)
  | [] => none
  | c :: s =>
    if delim.isPrefixOf (c :: s) then some ([], (c :: s).drop delim.length)
    else (splitFirst s).map (fun p => (c :: p.1, p.2))

/-- Fuelled worker for `splitAll`; the fuel only has to exceed the input
length (each found delimiter consumes at least one character). -/
def splitAllF : Nat → List Char → List (List Char)
  | 0, s => [s]
  | fuel + 1, s =>
    match splitFirst s with
    | none => [s]
    | some (a, b) => a :: splitAllF fuel b

/-- Model of JavaScript `currentContent.split('---')`: the list of chunks
between the (leftmost, non-overlapping) occurrences of the delimiter. -/
def splitAll (s : List Char) : List (List Char) := splitAllF (s.length + 1) s

/-- Model of JavaScript `Array.prototype.join(d)`. -/
def joinWith (d : List Char) : List (List Char) → List Char
  | [] => []
  | [x] => x
  | x :: y :: rest => x ++ d ++ joinWith d (y :: rest)

/-- The Document Merge Strategy, translated from
`const [header, ...rest] = currentContent.split('---');`
`const newContent = header.trim() + "\n\n---\n\n" + answerContent + rest.join('---').trim();` -/
def mergeContent (currentContent answerContent : List Char) : List Char :=
  match splitAll currentContent with
  | [] => []
  | header :: rest =>
    jsTrim header ++ chars "\n\n---\n\n" ++ answerContent
      ++ jsTrim (joinWith delim rest)

/-- The header region of a document: the content before the first delimiter
occurrence (the whole text when the delimiter is absent). -/
def headerOf (s : List Char) : List Char :=
  match splitFirst s with
  | none => s
  | some p => p.1

/-- The rest region of a document: the content after the first delimiter
occurrence (empty when the delimiter is absent). -/
def restOf (s : List Char) : List Char :=
  match splitFirst s with
  | none => []
  | some p => p.2

/-- Node `path.posix.basename(p)`: trailing separators are ignored and the
last path component is returned. -/
def basenameOf (p : List Char) : List Char :=
  ((p.reverse.dropWhile (· == '/')).takeWhile (· != '/')).reverse

/-- Index of the last `'.'` in a component, if any. -/
def lastDotIdx (b : List Char) : Option Nat :=
  match b.reverse.findIdx? (· == '.') with
  | none => none
  | some j => some (b.length - 1 - j)

/-- Node `path.extname(p)`: the substring of the basename from its last dot,
except that a dot in first position (a dotfile) and the component `'..'`
yield the empty extension. -/
def extnameOf (p : List Char) : List Char :=
  let b := basenameOf p
  match lastDotIdx b with
  | none => []
  | some i => if i = 0 ∨ b = ['.', '.'] then [] else b.drop i

/-- Node `path.basename(p, ext)`: the basename, with `ext` removed when it is
a nonempty proper suffix of it. -/
def basenameSuffixOf (p ext : List Char) : List Char :=
  let b := basenameOf p
  if !ext.isEmpty && ext.length < b.length && ext.isSuffixOf b then
    b.take (b.length - ext.length)
  else b

/-- `path.basename(item, path.extname(item))` from the source link rendering. -/
def sourceNameOf (item : List Char) : List Char :=
  basenameSuffixOf item (extnameOf item)

/-- Spec-side counterpart, from the spec's words: the source's base name with
any extension stripped, i.e. cut at the last dot (dotfiles and `'..'` have no
extension to strip). -/
def specSourceName (item : List Char) : List Char :=
  let b := basenameOf item
  match lastDotIdx b with
  | none => b
  | some i => if i = 0 ∨ b = ['.', '.'] then b else b.take i

/-- One rendered source link: `` `- [[${sourceName}]]` ``. -/
def sourceLineOf (item : List Char) : List Char :=
  chars "- [[" ++ sourceNameOf item ++ chars "]]"

/-- The fixed line rendered when the source list is empty. -/
def noSourcesLine : List Char := chars "- No sources found."

/-- The source section of the answer block, translated from the ternary
`sources.length > 0 ? sources.map(...).join("\n") : "- No sources found."`. -/
def sourcesTextOf (sources : List (List Char)) : List Char :=
  if sources.length > 0 then joinWith ['\n'] (sources.map sourceLineOf)
  else noSourcesLine

/-- The placeholder used when the response has no (truthy) answer:
`resultsData.answer || "No answer provided"`. -/
def placeholderAnswer : List Char := chars "No answer provided"

/-- The rendered answer block
`` `## ${question}\n\n${answer}\n\n### Sources:\n${sourcesText}\n\n---\n\n` ``. -/
def answerContentOf (question answer sourcesText : List Char) : List Char :=
  chars "## " ++ question ++ chars "\n\n" ++ answer
    ++ chars "\n\n### Sources:\n" ++ sourcesText ++ chars "\n\n---\n\n"

/-- JSON values as produced by `JSON.parse`, extended with `jundefined` for the
value of an absent object property. -/
inductive JVal where
  | jundefined
  | jnull
  | jbool (b : Bool)
  | jnum (n : Int)
  | jstr (s : List Char)
  | jarr (elems : List JVal)
  | jobj (fields : List (List Char × JVal))

/-- JavaScript truthiness of a `JVal`. -/
def truthy : JVal → Bool
  | .jundefined => false
  | .jnull => false
  | .jbool b => b
  | .jnum n => n != 0
  | .jstr s => !s.isEmpty
  | .jarr _ => true
  | .jobj _ => true

/-- JavaScript `a || b`. -/
def jsOr (a b : JVal) : JVal := if truthy a then a else b

/-- First binding of a key in an object's field list. -/
def lookupField (fields : List (List Char × JVal)) (k : List Char) : Option JVal :=
  (fields.find? (fun p => p.1 == k)).map (·.2)

/-- JavaScript property read `v[k]`: `none` models the `TypeError` thrown on
`null`/`undefined`, objects yield the bound value or `undefined`, any other
value yields `undefined`. -/
def getProp : JVal → List Char → Option JVal
  | .jnull, _ => none
  | .jundefined, _ => none
  | .jobj fields, k => some ((lookupField fields k).getD .jundefined)
  | _, _ => some .jundefined

/-- Replace the value of a key (every binding of it), appending the binding
when the key is absent — JavaScript property assignment on an object. -/
def setField (fields : List (List Char × JVal)) (k : List Char) (v : JVal) :
    List (List Char × JVal) :=
  if fields.any (fun p => p.1 == k) then
    fields.map (fun p => if p.1 == k then (k, v) else p)
  else fields ++ [(k, v)]

/-- `existingData.question = question` followed by `JSON.stringify`: on an
object the field is set; on an array the assignment is dropped by
`JSON.stringify` (string keys of arrays are not serialised); on `null` or a
primitive the assignment throws a `TypeError` (strict-mode module code). -/
def setQuestion : JVal → List Char → Option JVal
  | .jobj fields, q => some (.jobj (setField fields (chars "question") (.jstr q)))
  | .jarr xs, _ => some (.jarr xs)
  | _, _ => none

mutual

/-- JavaScript string conversion `` `${v}` `` of a `JVal`. -/
def jsToString : JVal → List Char
  | .jundefined => chars "undefined"
  | .jnull => chars "null"
  | .jbool true => chars "true"
  | .jbool false => chars "false"
  | .jnum n => chars (toString n)
  | .jstr s => s
  | .jarr xs => joinWith [','] (jsToStringList xs)
  | .jobj _ => chars "[object Object]"

/-- Stringify each element of an array. -/
def jsToStringList : List JVal → List (List Char)
  | [] => []
  | v :: vs => jsToString v :: jsToStringList vs

end

/-- Collect the elements of the (defaulted) sources array as strings;
`none` models the `TypeError` Node's `path.basename` throws on a non-string
argument. -/
def asStrList : List JVal → Option (List (List Char))
  | [] => some []
  | .jstr s :: rest => (asStrList rest).map (s :: ·)
  | _ :: _ => none

/-- The source section computed from the defaulted `sources` value: an array
is rendered per element (throwing on non-string elements); a nonempty string
has `.length > 0` but no `.map`, so it throws; any other truthy value has an
`undefined` `.length`, so the ternary renders the no-sources line. -/
def sourcesTextOfVal : JVal → Option (List Char)
  | .jarr items => (asStrList items).map sourcesTextOf
  | .jstr s => if s.isEmpty then some (sourcesTextOf []) else none
  | _ => some noSourcesLine

/-- JavaScript `hay.includes(needle)`: substring test, used by the
merge-verification step. -/
def jsIncludes (needle : List Char) : List Char → Bool
  | [] => needle.isEmpty
  | c :: s => needle.isPrefixOf (c :: s) || jsIncludes needle s

/-- `maxRetries` from `renderResultsWhenAvailable`. -/
def maxRetries : Nat := 30

/-- `retryInterval` (milliseconds) from `renderResultsWhenAvailable`. -/
def retryInterval : Nat := 2000

/-- The user-visible notifications the two handlers can emit. -/
inductive NoticeMsg where
  /-- "Failed to get results. Please try again." -/
  | noResults
  /-- "Response rendered successfully." -/
  | renderedOk
  /-- "Failed to render the response. Retrying..." -/
  | renderFailed
  /-- "Failed to process the question. Please try again." -/
  | submitFailed
deriving DecidableEq

/-- Environment of one `checkResults` invocation: what the file system, the
lock, `JSON.parse` and the vault reads return. -/
structure CheckEnv where
  fileExists : Bool
  lockOk : Bool
  parsed : Option JVal
  docContent : List Char
  updatedContent : List Char

/-- Observable outcome of one `checkResults` invocation. -/
structure CheckOut where
  notices : List NoticeMsg
  docWrite : Option (List Char)
  next : Option (Nat × Nat)
  lockAttempted : Bool
  lockAcquired : Bool
  unlockCalled : Bool
  unlinkCalled : Bool
deriving DecidableEq

/-- One `checkResults(retryCount)` call, translated branch for branch from
`renderResultsWhenAvailable`: exhaustion check first; otherwise, when the
response file exists, lock/parse/render/merge/verify inside `try`, with
`unlock` and `fs.unlink` in `finally`; otherwise schedule the next check. -/
def checkResultsStep (retryCount : Nat) (question : List Char) (env : CheckEnv) :
    CheckOut :=
  if retryCount ≥ maxRetries then
    { notices := [.noResults], docWrite := none, next := none,
      lockAttempted := false, lockAcquired := false,
      unlockCalled := false, unlinkCalled := false }
  else if env.fileExists then
    if env.lockOk then
      match env.parsed with
      | none =>
        { notices := [], docWrite := none, next := none,
          lockAttempted := true, lockAcquired := true,
          unlockCalled := true, unlinkCalled := true }
      | some data =>
        match getProp data (chars "answer"), getProp data (chars "sources") with
        | some av, some sv =>
          let answer := jsOr av (.jstr placeholderAnswer)
          let sources := jsOr sv (.jarr [])
          match sourcesTextOfVal sources with
          | some sourcesText =>
            let answerContent :=
              answerContentOf question (jsToString answer) sourcesText
            let newContent := mergeContent env.docContent answerContent
            if jsIncludes answerContent env.updatedContent then
              { notices := [.renderedOk], docWrite := some newContent,
                next := none, lockAttempted := true, lockAcquired := true,
                unlockCalled := true, unlinkCalled := true }
            else
              { notices := [.renderFailed], docWrite := some newContent,
                next := some (retryCount + 1, retryInterval),
                lockAttempted := true, lockAcquired := true,
                unlockCalled := true, unlinkCalled := true }
          | none =>
            { notices := [], docWrite := none, next := none,
              lockAttempted := true, lockAcquired := true,
              unlockCalled := true, unlinkCalled := true }
        | _, _ =>
          { notices := [], docWrite := none, next := none,
            lockAttempted := true, lockAcquired := true,
            unlockCalled := true, unlinkCalled := true }
    else
      { notices := [], docWrite := none, next := none,
        lockAttempted := true, lockAcquired := false,
        unlockCalled := true, unlinkCalled := true }
  else
    { notices := [], docWrite := none, next := some (retryCount + 1, retryInterval),
      lockAttempted := false, lockAcquired := false,
      unlockCalled := false, unlinkCalled := false }

/-- Fuelled run of the polling chain started by `checkResults(0)`: each
scheduled `setTimeout` continuation is followed. -/
def runFromF (question : List Char) (envs : Nat → CheckEnv) :
    Nat → Nat → List CheckOut
  | 0, _ => []
  | fuel + 1, k =>
    let out := checkResultsStep k question (envs k)
    match out.next with
    | none => [out]
    | some p => out :: runFromF question envs fuel p.1

/-- The full polling sequence `checkResults(0)` gives rise to.  The fuel
`maxRetries + 1` is sufficient: every scheduled continuation carries an
incremented counter, and a counter at `maxRetries` terminates. -/
def runPoll (question : List Char) (envs : Nat → CheckEnv) : List CheckOut :=
  runFromF question envs (maxRetries + 1) 0

/-- Prior state of the request file. -/
inductive ReqFile where
  | absent
  | emptyContent
  | unparseable
  | jsonContent (v : JVal)

/-- Environment of one `handleQuestionSubmit` call. -/
structure SubmitEnv where
  createOk : Bool
  lockOk : Bool

/-- Observable outcome of one `handleQuestionSubmit` call. -/
structure SubmitOut where
  file : ReqFile
  notices : List NoticeMsg
  lockAttempted : Bool
  lockAcquired : Bool
  unlockCalled : Bool
  renderStarted : Bool

/-- One `handleQuestionSubmit(question, ...)` call, translated from the
source: create-if-absent outside the lock; then under the lock read the file
(empty content keeps the `{ question: "" }` default, a parse error is caught
and keeps it too), assign `existingData.question`, write back, and start the
result poller; any error is caught with a failure notice; `unlock` runs in
`finally` on every path. -/
def handleQuestionSubmit (question : List Char) (st : ReqFile) (env : SubmitEnv) :
    SubmitOut :=
  match st, env.createOk with
  | .absent, false =>
    { file := .absent, notices := [.submitFailed], lockAttempted := false,
      lockAcquired := false, unlockCalled := true, renderStarted := false }
  | _, _ =>
    let st1 : ReqFile :=
      match st with
      | .absent => .jsonContent (.jobj [(chars "question", .jstr question)])
      | other => other
    if env.lockOk then
      let existing : JVal :=
        match st1 with
        | .jsonContent v => v
        | _ => .jobj [(chars "question", .jstr [])]
      match setQuestion existing question with
      | none =>
        { file := st1, notices := [.submitFailed], lockAttempted := true,
          lockAcquired := true, unlockCalled := true, renderStarted := false }
      | some v =>
        { file := .jsonContent v, notices := [], lockAttempted := true,
          lockAcquired := true, unlockCalled := true, renderStarted := true }
    else
      { file := st1, notices := [.submitFailed], lockAttempted := true,
        lockAcquired := false, unlockCalled := true, renderStarted := false }

/-- Read the `question` field back from the request file. -/
def readRequestQuestion (st : ReqFile) : Option (List Char) :=
  match st with
  | .jsonContent (.jobj fields) =>
    match lookupField fields (chars "question") with
    | some (.jstr s) => some s
    | _ => none
  | _ => none

/-- The output shape claim C4 literally enumerates: trimmed header, delimiter,
blank line, answer block, trimmed rejoined rest — with no separator between
the trimmed header and the delimiter. -/
def claimedMergeShape (currentContent answerContent : List Char) : List Char :=
  jsTrim (headerOf currentContent) ++ delim ++ chars "\n\n" ++ answerContent
    ++ jsTrim (restOf currentContent)

theorem delim_ne_nil : delim ≠ [] := by decide

theorem splitFirst_eq_parts {s a b : List Char} (h : splitFirst s = some (a, b)) :
    s = a ++ delim ++ b := by
  induction s generalizing a b with
  | nil => simp [splitFirst] at h
  | cons c s ih =>
    rw [splitFirst] at h
    by_cases hp : delim.isPrefixOf (c :: s)
    · rw [if_pos hp] at h
      injection h with h'
      obtain ⟨t, ht⟩ := List.isPrefixOf_iff_prefix.mp hp
      have hdrop : (c :: s).drop delim.length = t := by
        rw [← ht]; exact List.drop_left delim t
      have ha : a = [] := by
        have := congrArg Prod.fst h'; simpa using this.symm
      have hb : b = t := by
        have := congrArg Prod.snd h'; simp [hdrop] at this; exact this.symm
      subst ha; subst hb
      simp [← ht]
    · rw [if_neg hp] at h
      cases hsf : splitFirst s with
      | none => rw [hsf] at h; simp at h
      | some p =>
        rw [hsf] at h
        simp only [Option.map_some'] at h
        injection h with h'
        have ha : a = c :: p.1 := by
          have := congrArg Prod.fst h'; simpa using this.symm
        have hb : b = p.2 := by
          have := congrArg Prod.snd h'; simpa using this.symm
        subst ha; subst hb
        have := ih (a := p.1) (b := p.2) (by rw [hsf])
        simp [this]

theorem splitFirst_snd_shorter {s a b : List Char} (h : splitFirst s = some (a, b)) :
    b.length < s.length := by
  have := splitFirst_eq_parts h
  subst this
  simp [delim]
  omega

theorem splitFirst_none_of_absent {s : List Char} (h : ¬ delim <:+: s) :
    splitFirst s = none := by
  cases hsf : splitFirst s with
  | none => rfl
  | some p =>
    exfalso
    obtain ⟨a, b⟩ := p
    have := splitFirst_eq_parts hsf
    exact h ⟨a, b, this.symm⟩

theorem splitFirst_none_not_infix {s : List Char} (h : splitFirst s = none) :
    ¬ delim <:+: s := by
  induction s with
  | nil =>
    rintro ⟨x, y, hxy⟩
    have : delim = [] := by cases x <;> simp_all
    exact delim_ne_nil this
  | cons c s ih =>
    rw [splitFirst] at h
    by_cases hp : delim.isPrefixOf (c :: s)
    · rw [if_pos hp] at h; simp at h
    · rw [if_neg hp] at h
      cases hsf : splitFirst s with
      | some p => rw [hsf] at h; simp at h
      | none =>
        rintro ⟨x, y, hxy⟩
        cases x with
        | nil =>
          simp only [List.nil_append] at hxy
          exact hp (List.isPrefixOf_iff_prefix.mpr ⟨y, hxy⟩)
        | cons d x' =>
          simp only [List.cons_append, List.cons.injEq] at hxy
          exact (ih hsf) ⟨x', y, hxy.2⟩

theorem splitFirst_header_no_delim {s a b : List Char}
    (h : splitFirst s = some (a, b)) : ¬ delim <:+: a := by
  induction s generalizing a b with
  | nil => simp [splitFirst] at h
  | cons c s ih =>
    rw [splitFirst] at h
    by_cases hp : delim.isPrefixOf (c :: s)
    · rw [if_pos hp] at h
      injection h with h'
      have ha : a = [] := by
        have := congrArg Prod.fst h'; simpa using this.symm
      subst ha
      rintro ⟨x, y, hxy⟩
      have : delim = [] := by cases x <;> simp_all
      exact delim_ne_nil this
    · rw [if_neg hp] at h
      cases hsf : splitFirst s with
      | none => rw [hsf] at h; simp at h
      | some p =>
        obtain ⟨a', b'⟩ := p
        rw [hsf] at h
        simp only [Option.map_some'] at h
        injection h with h'
        have ha : a = c :: a' := by
          have := congrArg Prod.fst h'; simpa using this.symm
        subst ha
        rintro ⟨x, y, hxy⟩
        cases x with
        | nil =>
          simp only [List.nil_append] at hxy
          have hs : s = a' ++ delim ++ b' := splitFirst_eq_parts hsf
          have hpre : delim <+: c :: s := by
            refine ⟨y ++ (delim ++ b'), ?_⟩
            rw [hs]
            rw [show delim ++ (y ++ (delim ++ b'))
                = (delim ++ y) ++ (delim ++ b') by simp]
            rw [hxy]
            simp
          exact hp (List.isPrefixOf_iff_prefix.mpr hpre)
        | cons d x' =>
          simp only [List.cons_append, List.cons.injEq] at hxy
          exact ih hsf ⟨x', y, hxy.2⟩
theorem splitAllF_fuel_irrelevant :
    ∀ f₁ f₂ s, s.length < f₁ → s.length < f₂ → splitAllF f₁ s = splitAllF f₂ s := by
  intro f₁
  induction f₁ with
  | zero => intro f₂ s h₁; omega
  | succ f ih =>
    intro f₂ s h₁ h₂
    cases f₂ with
    | zero => omega
    | succ g =>
      rw [splitAllF, splitAllF]
      cases hsf : splitFirst s with
      | none => rfl
      | some p =>
        obtain ⟨a, b⟩ := p
        dsimp only
        have hlt : b.length < s.length := splitFirst_snd_shorter hsf
        rw [ih g b (by omega) (by omega)]

theorem splitAll_some {s a b : List Char} (h : splitFirst s = some (a, b)) :
    splitAll s = a :: splitAll b := by
  have hlt : b.length < s.length := splitFirst_snd_shorter h
  rw [splitAll, splitAll, splitAllF, h]
  dsimp only
  rw [splitAllF_fuel_irrelevant s.length (b.length + 1) b (by omega) (by omega)]

theorem splitAll_none {s : List Char} (h : splitFirst s = none) :
    splitAll s = [s] := by
  rw [splitAll, splitAllF, h]

theorem splitAll_ne_nil (s : List Char) : splitAll s ≠ [] := by
  cases hsf : splitFirst s with
  | none => rw [splitAll_none hsf]; simp
  | some p =>
    obtain ⟨a, b⟩ := p
    rw [splitAll_some hsf]; simp

theorem joinWith_cons_of_ne_nil (d x : List Char) {l : List (List Char)}
    (h : l ≠ []) : joinWith d (x :: l) = x ++ d ++ joinWith d l := by
  cases l with
  | nil => exact absurd rfl h
  | cons y rest => rw [joinWith]

theorem joinWith_splitAll : ∀ n s, s.length ≤ n → joinWith delim (splitAll s) = s := by
  intro n
  induction n with
  | zero =>
    intro s h
    have : s = [] := by cases s <;> simp_all
    subst this
    have : splitFirst ([] : List Char) = none := by rw [splitFirst]
    rw [splitAll_none this, joinWith]
  | succ n ih =>
    intro s h
    cases hsf : splitFirst s with
    | none => rw [splitAll_none hsf, joinWith]
    | some p =>
      obtain ⟨a, b⟩ := p
      rw [splitAll_some hsf]
      rw [joinWith_cons_of_ne_nil delim a (splitAll_ne_nil b)]
      have hs : s = a ++ delim ++ b := splitFirst_eq_parts hsf
      have hlt : b.length < s.length := splitFirst_snd_shorter hsf
      rw [ih b (by omega)]
      exact hs.symm

theorem trimStart_suffix (s : List Char) : trimStart s <:+ s :=
  List.dropWhile_suffix isJsSpace

theorem trimEnd_prefix_self (s : List Char) : trimEnd s <+: s := by
  have h : s.reverse.dropWhile isJsSpace <:+ s.reverse := List.dropWhile_suffix isJsSpace
  have h2 := List.reverse_prefix.mpr h
  rwa [List.reverse_reverse] at h2

theorem jsTrim_infix_self (s : List Char) : jsTrim s <:+: s :=
  ((trimEnd_prefix_self (trimStart s)).isInfix).trans ((trimStart_suffix s).isInfix)

theorem no_delim_in_jsTrim {s : List Char} (h : ¬ delim <:+: s) :
    ¬ delim <:+: jsTrim s :=
  fun hi => h (hi.trans (jsTrim_infix_self s))

theorem not_infix_append_blank {t : List Char} (ht : ¬ delim <:+: t) :
    ¬ delim <:+: (t ++ ['\n', '\n']) := by
  rintro ⟨x, y, hxy⟩
  rcases List.append_eq_append_iff.mp hxy with ⟨u, hu1, _⟩ | ⟨v, hv1, hv2⟩
  · exact ht ⟨x, u, by rw [hu1]⟩
  · have hv3 : v = [] ∨ v = ['\n'] ∨ v = ['\n', '\n'] := by
      cases v with
      | nil => exact Or.inl rfl
      | cons c v' =>
        cases v' with
        | nil =>
          have h' : '\n' :: ['\n'] = c :: y := by simpa using hv2
          injection h' with h1 _
          exact Or.inr (Or.inl (by rw [← h1]))
        | cons d v'' =>
          have h' : '\n' :: '\n' :: ([] : List Char) = c :: (d :: (v'' ++ y)) := by
            simpa using hv2
          injection h' with h1 h''
          injection h'' with h2 h'''
          have hv'' : v'' = [] := by
            cases v'' with
            | nil => rfl
            | cons g v₃ => simp at h'''
          exact Or.inr (Or.inr (by rw [← h1, ← h2, hv'']))
    rcases hv3 with rfl | rfl | rfl
    · simp only [List.append_nil] at hv1
      exact ht ⟨x, [], by simp [hv1]⟩
    · have := congrArg List.reverse hv1
      simp [delim] at this
    · have := congrArg List.reverse hv1
      simp [delim] at this

theorem splitFirst_of_clean_head :
    ∀ A B : List Char, ¬ delim <:+: A →
      (∀ a2, a2 <:+ A → a2 ≠ [] → a2.length < delim.length → ¬ a2 <+: delim) →
      splitFirst (A ++ (delim ++ B)) = some (A, B) := by
  intro A
  induction A with
  | nil =>
    intro B _ _
    simp only [List.nil_append]
    show splitFirst ('-' :: '-' :: '-' :: B) = some ([], B)
    rw [splitFirst]
    rw [if_pos (by simp [delim, List.isPrefixOf])]
    simp [delim]
  | cons c A' ih =>
    intro B h1 h2
    have hs : (c :: A') ++ (delim ++ B) = c :: (A' ++ (delim ++ B)) := by simp
    rw [hs, splitFirst]
    have hnp : ¬ delim.isPrefixOf (c :: (A' ++ (delim ++ B))) = true := by
      intro hp
      have hpre : delim <+: (c :: A') ++ (delim ++ B) := by
        rw [hs]; exact List.isPrefixOf_iff_prefix.mp hp
      by_cases hlen : delim.length ≤ (c :: A').length
      · have hdp : delim <+: c :: A' := by
          have h3 : delim = ((c :: A') ++ (delim ++ B)).take delim.length :=
            List.prefix_iff_eq_take.mp hpre
          rw [List.take_append_of_le_length hlen] at h3
          rw [h3]
          exact List.take_prefix delim.length (c :: A')
        exact h1 hdp.isInfix
      · push_neg at hlen
        have hpA : (c :: A') <+: (c :: A') ++ (delim ++ B) :=
          List.prefix_append (c :: A') (delim ++ B)
        have hA : (c :: A') <+: delim :=
          List.prefix_of_prefix_length_le hpA hpre (by omega)
        exact h2 (c :: A') (List.suffix_refl _) (by simp) hlen hA
    rw [if_neg hnp]
    have h1' : ¬ delim <:+: A' := by
      rintro ⟨x, y, hxy⟩
      exact h1 ⟨c :: x, y, by simp [hxy]⟩
    have h2' : ∀ a2, a2 <:+ A' → a2 ≠ [] → a2.length < delim.length → ¬ a2 <+: delim := by
      intro a2 hsuf hne hlen
      exact h2 a2 (hsuf.trans (List.suffix_cons c A')) hne hlen
    rw [ih B h1' h2']
    rfl

theorem splitFirst_trimmed_head {t B : List Char} (ht : ¬ delim <:+: t) :
    splitFirst ((t ++ ['\n', '\n']) ++ (delim ++ B)) = some (t ++ ['\n', '\n'], B) := by
  apply splitFirst_of_clean_head
  · exact not_infix_append_blank ht
  · intro a2 hsuf hne hlen
    have hlen2 : a2.length ≤ 2 := by
      simp only [delim, List.length_cons, List.length_nil] at hlen
      omega
    have ha2 : a2 = (t ++ ['\n', '\n']).drop ((t ++ ['\n', '\n']).length - a2.length) :=
      List.suffix_iff_eq_drop.mp hsuf
    have hlen3 : (t ++ ['\n', '\n']).length - a2.length
        = t.length + (2 - a2.length) := by
      simp only [List.length_append, List.length_cons, List.length_nil]
      omega
    rw [hlen3, List.drop_append (2 - a2.length)] at ha2
    have hsuf2 : a2 <:+ ['\n', '\n'] := by
      rw [ha2]
      exact List.drop_suffix _ _
    clear ha2 hlen3 hsuf hlen hlen2
    obtain ⟨w, hw⟩ := hsuf2
    intro hpre
    obtain ⟨z, hz⟩ := hpre
    cases w with
    | nil =>
      simp only [List.nil_append] at hw
      subst hw
      simp [delim] at hz
    | cons e w' =>
      cases w' with
      | nil =>
        have hw' : e :: a2 = '\n' :: ['\n'] := by simpa using hw
        injection hw' with h1 h2
        rw [h2] at hz
        simp [delim] at hz
      | cons f w'' =>
        exfalso
        have hlw := congrArg List.length hw
        simp only [List.length_append, List.length_cons, List.length_nil] at hlw
        have hpos : 0 < a2.length := List.length_pos.mpr hne
        omega

theorem chars_blank_delim :
    chars "\n\n---\n\n" = ['\n', '\n'] ++ (delim ++ ['\n', '\n']) := by decide

theorem mergeContent_eq_of_split {text h r : List Char}
    (hs : splitFirst text = some (h, r)) (block : List Char) :
    mergeContent text block
      = jsTrim h ++ chars "\n\n---\n\n" ++ block ++ jsTrim r := by
  rw [mergeContent, splitAll_some hs]
  dsimp only
  rw [joinWith_splitAll r.length r (Nat.le_refl _)]

theorem mergeContent_eq_of_no_delim {text : List Char} (hn : ¬ delim <:+: text)
    (block : List Char) :
    mergeContent text block = jsTrim text ++ chars "\n\n---\n\n" ++ block := by
  rw [mergeContent, splitAll_none (splitFirst_none_of_absent hn)]
  dsimp only
  rw [joinWith]
  show _ ++ _ ++ _ ++ jsTrim [] = _
  rw [show jsTrim ([] : List Char) = [] from rfl, List.append_nil]

theorem headerOf_mergeContent (text block : List Char) :
    headerOf (mergeContent text block) = jsTrim (headerOf text) ++ ['\n', '\n'] := by
  cases hs : splitFirst text with
  | some p =>
    obtain ⟨h, r⟩ := p
    rw [mergeContent_eq_of_split hs block]
    have hnd : ¬ delim <:+: jsTrim h :=
      no_delim_in_jsTrim (splitFirst_header_no_delim hs)
    have hsplit := splitFirst_trimmed_head
      (B := ['\n', '\n'] ++ (block ++ jsTrim r)) hnd
    have heq : jsTrim h ++ chars "\n\n---\n\n" ++ block ++ jsTrim r
        = (jsTrim h ++ ['\n', '\n'])
          ++ (delim ++ (['\n', '\n'] ++ (block ++ jsTrim r))) := by
      rw [chars_blank_delim]
      simp [List.append_assoc]
    rw [headerOf, heq, hsplit]
    rw [headerOf, hs]
  | none =>
    have hni := splitFirst_none_not_infix hs
    rw [mergeContent_eq_of_no_delim hni block]
    have hnd : ¬ delim <:+: jsTrim text := no_delim_in_jsTrim hni
    have hsplit := splitFirst_trimmed_head (B := ['\n', '\n'] ++ block) hnd
    have heq : jsTrim text ++ chars "\n\n---\n\n" ++ block
        = (jsTrim text ++ ['\n', '\n'])
          ++ (delim ++ (['\n', '\n'] ++ block)) := by
      rw [chars_blank_delim]
      simp [List.append_assoc]
    rw [headerOf, heq, hsplit]
    rw [headerOf, hs]

theorem lastDotIdx_lt_length {b : List Char} {i : Nat} (h : lastDotIdx b = some i) :
    i < b.length := by
  rw [lastDotIdx] at h
  cases hf : b.reverse.findIdx? (· == '.') with
  | none => rw [hf] at h; simp at h
  | some j =>
    rw [hf] at h
    have hj : j < b.reverse.length :=
      (List.findIdx?_eq_some_iff_findIdx_eq.mp hf).1
    rw [List.length_reverse] at hj
    injection h with h'
    omega

theorem sourceNameOf_eq_spec (item : List Char) :
    sourceNameOf item = specSourceName item := by
  rw [sourceNameOf, specSourceName, basenameSuffixOf, extnameOf]
  cases hld : lastDotIdx (basenameOf item) with
  | none => simp
  | some i =>
    by_cases hi : i = 0 ∨ basenameOf item = ['.', '.']
    · simp [hi]
    · have hlt : i < (basenameOf item).length := lastDotIdx_lt_length hld
      have hipos : 0 < i := by
        rcases Nat.eq_zero_or_pos i with h0 | h0
        · exact absurd (Or.inl h0) hi
        · exact h0
      simp only [if_neg hi]
      have hemp : ((basenameOf item).drop i).isEmpty = false := by
        rw [Bool.eq_false_iff]
        intro habs
        have := List.isEmpty_iff.mp habs
        rw [List.drop_eq_nil_iff] at this
        omega
      have hlen : ((basenameOf item).drop i).length < (basenameOf item).length := by
        rw [List.length_drop]
        omega
      have hsuf : ((basenameOf item).drop i).isSuffixOf (basenameOf item) = true :=
        List.isSuffixOf_iff_suffix.mpr (List.drop_suffix i (basenameOf item))
      rw [if_pos (by simp [hemp, hsuf, List.length_drop]; omega)]
      rw [List.length_drop]
      congr 1
      omega


theorem lookupField_setField (k : List Char) (v : JVal) :
    ∀ fields, lookupField (setField fields k v) k = some v := by
  intro fields
  induction fields with
  | nil =>
    rw [setField, if_neg (by simp), List.nil_append, lookupField,
      List.find?_cons_of_pos [] (by simp)]
    rfl
  | cons p fs ih =>
    rw [setField]
    by_cases hp : (p.1 == k) = true
    · rw [if_pos (by simp only [List.any_cons, hp, Bool.true_or])]
      simp only [List.map_cons, if_pos hp]
      rw [lookupField, List.find?_cons_of_pos _ (by simp)]
      rfl
    · by_cases hfs : fs.any (fun q => q.1 == k) = true
      · rw [if_pos (by simp only [List.any_cons, hfs, Bool.or_true])]
        have ih' := ih
        rw [setField, if_pos hfs] at ih'
        simp only [List.map_cons, if_neg hp]
        rw [lookupField, List.find?_cons_of_neg _ (by simpa using hp)]
        rw [lookupField] at ih'
        exact ih'
      · rw [if_neg (by
          simp only [List.any_cons, Bool.or_eq_true]
          rintro (h | h)
          · exact hp h
          · exact hfs h)]
        have ih' := ih
        rw [setField, if_neg hfs] at ih'
        simp only [List.cons_append]
        rw [lookupField, List.find?_cons_of_neg _ (by simpa using hp)]
        rw [lookupField] at ih'
        exact ih'

/-- C3 counterexample: the claimed verbatim preservation of the header fails,
because the code trims it — on `" a\n---x"` the output's header region is
`"a\n\n"`, not `" a\n"`. -/
theorem claim_C3_counterexample :
    headerOf (mergeContent (chars " a\n---x") (chars "B"))
      ≠ headerOf (chars " a\n---x") := by decide

/-- C3 (amended): for every input text and answer block, the merge preserves
the header region only up to whitespace trimming: the output's header region
(the content before the first delimiter occurrence in the output) is exactly
the trimmed input header followed by a blank line. -/
theorem claim_C3_header_trimmed (text block : List Char) :
    headerOf (mergeContent text block) = jsTrim (headerOf text) ++ ['\n', '\n'] :=
  headerOf_mergeContent text block

/-- C4 counterexample: the enumerated output shape (trimmed header, delimiter,
blank line, answer block, trimmed rest) is not exact — the code also puts a
blank line between the trimmed header and the delimiter. -/
theorem claim_C4_counterexample :
    mergeContent (chars "a---b") (chars "X")
      ≠ claimedMergeShape (chars "a---b") (chars "X") := by decide

/-- C4 (amended): for every input text containing the delimiter and every
answer block, the merge splits the text on the first delimiter occurrence
only (the header contains no delimiter occurrence, and the rest after that
first occurrence is rejoined verbatim), and the output is exactly: trimmed
header, blank line, delimiter, blank line, the answer block, then the
trimmed rejoined rest. -/
theorem claim_C4_merge_shape (text block h r : List Char)
    (hsplit : splitFirst text = some (h, r)) :
    mergeContent text block
      = jsTrim h ++ ['\n', '\n'] ++ delim ++ ['\n', '\n'] ++ block ++ jsTrim r
    ∧ text = h ++ delim ++ r
    ∧ ¬ delim <:+: h := by
  refine ⟨?_, splitFirst_eq_parts hsplit, splitFirst_header_no_delim hsplit⟩
  rw [mergeContent_eq_of_split hsplit block, chars_blank_delim]
  simp [List.append_assoc]

/-- C4 witness: the amended shape at a concrete input. -/
theorem claim_C4_witness :
    mergeContent (chars "a---b") (chars "X")
      = jsTrim (chars "a") ++ ['\n', '\n'] ++ delim ++ ['\n', '\n']
        ++ chars "X" ++ jsTrim (chars "b")
    ∧ chars "a---b" = chars "a" ++ delim ++ chars "b"
    ∧ ¬ delim <:+: chars "a" :=
  claim_C4_merge_shape (chars "a---b") (chars "X") (chars "a") (chars "b") (by decide)

/-- C8: when the input text contains no delimiter occurrence, the whole text
is the header: the output is the trimmed input, a newly introduced delimiter
(on a blank-line-separated line), the answer block, and an empty rest
region; and the input's header region is the entire text. -/
theorem claim_C8_no_delimiter (text block : List Char) (hnd : ¬ delim <:+: text) :
    mergeContent text block
      = jsTrim text ++ ['\n', '\n'] ++ delim ++ ['\n', '\n'] ++ block
    ∧ headerOf text = text ∧ restOf text = [] := by
  refine ⟨?_, ?_, ?_⟩
  · rw [mergeContent_eq_of_no_delim hnd block, chars_blank_delim]
    simp [List.append_assoc]
  · rw [headerOf, splitFirst_none_of_absent hnd]
  · rw [restOf, splitFirst_none_of_absent hnd]

/-- C8 witness: the no-delimiter merge at a concrete input. -/
theorem claim_C8_witness :
    mergeContent (chars "hello") (chars "B")
      = jsTrim (chars "hello") ++ ['\n', '\n'] ++ delim ++ ['\n', '\n'] ++ chars "B"
    ∧ headerOf (chars "hello") = chars "hello" ∧ restOf (chars "hello") = [] :=
  claim_C8_no_delimiter (chars "hello") (chars "B") (by decide)

/-- C7: the rendered source section is, for a non-empty list, one line per
source in original order of the form `- [[name]]` with `name` the base name
stripped of any extension, and for an empty list exactly the fixed
no-sources line. -/
theorem claim_C7_source_section (sources : List (List Char)) :
    sourcesTextOf sources
      = if sources = [] then noSourcesLine
        else joinWith ['\n'] (sources.map (fun item =>
          chars "- [[" ++ specSourceName item ++ chars "]]")) := by
  cases sources with
  | nil => simp [sourcesTextOf]
  | cons a l =>
    rw [sourcesTextOf, if_pos (by simp), if_neg (by simp)]
    congr 1
    refine List.map_congr_left ?_
    intro item _
    rw [sourceLineOf, sourceNameOf_eq_spec]

/-- C10: the response-record defaults are applied to every falsy field value,
not just absent ones: whenever the parsed response's `answer` field is falsy
(e.g. the empty string) and its `sources` field is `null`, the block merged
into the document carries the placeholder answer and the empty-source
rendering. -/
theorem claim_C10_falsy_defaults (k : Nat) (q : List Char) (env : CheckEnv)
    (data av : JVal)
    (hk : k < maxRetries) (hex : env.fileExists = true) (hl : env.lockOk = true)
    (hp : env.parsed = some data)
    (ha : getProp data (chars "answer") = some av) (hfa : truthy av = false)
    (hs : getProp data (chars "sources") = some .jnull) :
    (checkResultsStep k q env).docWrite
      = some (mergeContent env.docContent
          (answerContentOf q placeholderAnswer noSourcesLine)) := by
  rw [checkResultsStep, if_neg (by omega), if_pos hex, if_pos hl, hp]
  dsimp only
  rw [ha, hs]
  dsimp only
  rw [show jsOr av (JVal.jstr placeholderAnswer) = .jstr placeholderAnswer by
    rw [jsOr, if_neg (by simp [hfa])]]
  rw [show jsOr JVal.jnull (JVal.jarr []) = .jarr [] by rw [jsOr, if_neg (by simp [truthy])]]
  rw [show sourcesTextOfVal (JVal.jarr []) = some (sourcesTextOf []) from rfl]
  dsimp only
  rw [show sourcesTextOf [] = noSourcesLine from rfl]
  rw [show jsToString (JVal.jstr placeholderAnswer) = placeholderAnswer from rfl]
  split
  · rfl
  · rfl

/-- C10 witness: a response with an empty-string answer and a null sources
field merges the placeholder answer and the no-sources rendering. -/
theorem claim_C10_witness :
    (checkResultsStep 0 (chars "Q")
        ⟨true, true,
          some (.jobj [(chars "answer", .jstr []), (chars "sources", .jnull)]),
          [], []⟩).docWrite
      = some (mergeContent []
          (answerContentOf (chars "Q") placeholderAnswer noSourcesLine)) :=
  claim_C10_falsy_defaults 0 (chars "Q")
    ⟨true, true,
      some (.jobj [(chars "answer", .jstr []), (chars "sources", .jnull)]),
      [], []⟩
    (.jobj [(chars "answer", .jstr []), (chars "sources", .jnull)]) (.jstr [])
    (by decide) rfl rfl rfl rfl rfl rfl

/-- C1 counterexample: with the response file found, parsed, and the
merge-verification substring check failing at retry count 0, the next check
is scheduled with the counter incremented to 1, not unchanged at 0. -/
theorem claim_C1_counterexample :
    (checkResultsStep 0 (chars "Q")
        ⟨true, true, some (.jobj [(chars "answer", .jstr (chars "Y")),
          (chars "sources", .jarr [])]), [], []⟩).notices
      = [NoticeMsg.renderFailed]
    ∧ (checkResultsStep 0 (chars "Q")
        ⟨true, true, some (.jobj [(chars "answer", .jstr (chars "Y")),
          (chars "sources", .jarr [])]), [], []⟩).next
      ≠ some (0, retryInterval) := by decide

/-- C1 (amended): when the response file has been found and the
merge-verification substring check fails, the poller notifies
retry-in-progress and schedules another check after the fixed delay with the
retry counter incremented by one — the failed-merge retry counts toward the
exhaustion maximum like a normal retry — for every retry count below the
maximum. -/
theorem claim_C1_failed_merge_retry (k : Nat) (q : List Char) (env : CheckEnv)
    (data av sv : JVal) (sourcesText : List Char)
    (hk : k < maxRetries) (hex : env.fileExists = true) (hl : env.lockOk = true)
    (hp : env.parsed = some data)
    (ha : getProp data (chars "answer") = some av)
    (hs : getProp data (chars "sources") = some sv)
    (hst : sourcesTextOfVal (jsOr sv (.jarr [])) = some sourcesText)
    (hfail : jsIncludes
        (answerContentOf q (jsToString (jsOr av (.jstr placeholderAnswer)))
          sourcesText)
        env.updatedContent = false) :
    (checkResultsStep k q env).next = some (k + 1, retryInterval)
    ∧ (checkResultsStep k q env).notices = [NoticeMsg.renderFailed] := by
  rw [checkResultsStep, if_neg (by omega), if_pos hex, if_pos hl, hp]
  dsimp only
  rw [ha, hs]
  dsimp only
  rw [hst]
  dsimp only
  rw [if_neg (by simp [hfail])]
  exact ⟨rfl, rfl⟩

/-- C1 witness: the amended behaviour at a concrete found-and-failed check. -/
theorem claim_C1_witness :
    (checkResultsStep 0 (chars "Q")
        ⟨true, true, some (.jobj [(chars "answer", .jstr (chars "Y")),
          (chars "sources", .jarr [])]), [], []⟩).next
      = some (1, retryInterval)
    ∧ (checkResultsStep 0 (chars "Q")
        ⟨true, true, some (.jobj [(chars "answer", .jstr (chars "Y")),
          (chars "sources", .jarr [])]), [], []⟩).notices
      = [NoticeMsg.renderFailed] :=
  claim_C1_failed_merge_retry 0 (chars "Q")
    ⟨true, true, some (.jobj [(chars "answer", .jstr (chars "Y")),
      (chars "sources", .jarr [])]), [], []⟩
    (.jobj [(chars "answer", .jstr (chars "Y")), (chars "sources", .jarr [])])
    (.jstr (chars "Y")) (.jarr []) noSourcesLine
    (by decide) rfl rfl rfl rfl rfl rfl (by decide)

/-- C2 counterexample: on a malformed response file (parse failure) the
handler does not substitute the default record and does not proceed with the
merge — no document write happens at all. -/
theorem claim_C2_counterexample :
    (checkResultsStep 0 (chars "Q") ⟨true, true, none, chars "doc", chars "doc"⟩).docWrite
      ≠ some (mergeContent (chars "doc")
          (answerContentOf (chars "Q") placeholderAnswer noSourcesLine))
    ∧ (checkResultsStep 0 (chars "Q")
        ⟨true, true, none, chars "doc", chars "doc"⟩).docWrite = none := by decide

/-- C2 (amended): for every response file whose content is malformed (not
parseable as JSON), the poller abandons the attempt without substituting the
default record and without merging: no document write, no user-visible
notice (the parse error is never surfaced), no further check scheduled, and
the lock release and file deletion still run.  Field defaults apply only to
successfully parsed content. -/
theorem claim_C2_parse_error_aborts (k : Nat) (q : List Char) (env : CheckEnv)
    (hk : k < maxRetries) (hex : env.fileExists = true) (hl : env.lockOk = true)
    (hp : env.parsed = none) :
    checkResultsStep k q env
      = { notices := [], docWrite := none, next := none,
          lockAttempted := true, lockAcquired := true,
          unlockCalled := true, unlinkCalled := true } := by
  rw [checkResultsStep, if_neg (by omega), if_pos hex, if_pos hl, hp]

/-- C2 witness: the abandoning behaviour at a concrete malformed response. -/
theorem claim_C2_witness :
    checkResultsStep 0 (chars "Q") ⟨true, true, none, chars "doc", chars "doc"⟩
      = { notices := [], docWrite := none, next := none,
          lockAttempted := true, lockAcquired := true,
          unlockCalled := true, unlinkCalled := true } :=
  claim_C2_parse_error_aborts 0 (chars "Q")
    ⟨true, true, none, chars "doc", chars "doc"⟩ (by decide) rfl rfl rfl

/-- C5 counterexample: when the prior request-file content parses to the
JSON value `null`, the property assignment throws, the submit fails with a
notice, and the file still holds `null` — reading back the question does not
yield the submitted string. -/
theorem claim_C5_counterexample :
    readRequestQuestion (handleQuestionSubmit (chars "What is X?")
        (.jsonContent .jnull) ⟨true, true⟩).file ≠ some (chars "What is X?")
    ∧ (handleQuestionSubmit (chars "What is X?")
        (.jsonContent .jnull) ⟨true, true⟩).notices = [NoticeMsg.submitFailed]
    ∧ (handleQuestionSubmit (chars "What is X?")
        (.jsonContent .jnull) ⟨true, true⟩).file = ReqFile.jsonContent .jnull := by
  refine ⟨?_, rfl, rfl⟩
  intro h
  rw [show readRequestQuestion (handleQuestionSubmit (chars "What is X?")
      (.jsonContent .jnull) ⟨true, true⟩).file = none from rfl] at h
  cases h

/-- C5 (amended): submitting a question `q` followed by a read of the request
file yields a record whose question field equals `q` whenever the prior
state of the file is absent, empty, unparseable, or a JSON object.  It fails
for the other parseable prior contents: when the prior content parses to
`null` or to a primitive (boolean, number, or string), the property
assignment throws, a failure notice is shown, and the file is left
unchanged; when it parses to an array, the assignment is silently dropped on
serialisation — no notice is shown, the file is rewritten as the bare array,
and the stored record has no question field to read back. -/
theorem claim_C5_submit_question (q : List Char) (st : ReqFile) (env : SubmitEnv)
    (hc : env.createOk = true) (hl : env.lockOk = true) :
    ((st = .absent ∨ st = .emptyContent ∨ st = .unparseable
        ∨ ∃ fields, st = .jsonContent (.jobj fields)) →
      readRequestQuestion (handleQuestionSubmit q st env).file = some q)
    ∧ (∀ v, st = .jsonContent v →
        (v = .jnull ∨ (∃ b, v = .jbool b) ∨ (∃ n, v = .jnum n)
          ∨ (∃ s, v = .jstr s)) →
        (handleQuestionSubmit q st env).file = st
        ∧ (handleQuestionSubmit q st env).notices = [NoticeMsg.submitFailed])
    ∧ (∀ xs, st = .jsonContent (.jarr xs) →
        (handleQuestionSubmit q st env).file = .jsonContent (.jarr xs)
        ∧ (handleQuestionSubmit q st env).notices = []
        ∧ readRequestQuestion (handleQuestionSubmit q st env).file = none) := by
  obtain ⟨co, lo⟩ := env
  simp only at hc hl
  subst hc
  subst hl
  refine ⟨?_, ?_, ?_⟩
  · intro hok
    rcases hok with rfl | rfl | rfl | ⟨fields, rfl⟩ <;>
      simp [handleQuestionSubmit, readRequestQuestion, setQuestion,
        lookupField_setField]
  · rintro v rfl hv
    rcases hv with rfl | ⟨b, rfl⟩ | ⟨n, rfl⟩ | ⟨s, rfl⟩ <;> exact ⟨rfl, rfl⟩
  · rintro xs rfl
    exact ⟨rfl, rfl, rfl⟩

/-- C5 witness: submitting on an absent request file stores the question, and
submitting on a prior array silently drops it with no notice. -/
theorem claim_C5_witness :
    readRequestQuestion (handleQuestionSubmit (chars "What is X?")
        ReqFile.absent ⟨true, true⟩).file = some (chars "What is X?")
    ∧ (handleQuestionSubmit (chars "What is X?")
        (.jsonContent (.jarr [])) ⟨true, true⟩).notices = []
    ∧ readRequestQuestion (handleQuestionSubmit (chars "What is X?")
        (.jsonContent (.jarr [])) ⟨true, true⟩).file = none :=
  ⟨(claim_C5_submit_question (chars "What is X?") ReqFile.absent ⟨true, true⟩
      rfl rfl).1 (Or.inl rfl),
    ((claim_C5_submit_question (chars "What is X?") (.jsonContent (.jarr []))
      ⟨true, true⟩ rfl rfl).2.2 [] rfl).2.1,
    ((claim_C5_submit_question (chars "What is X?") (.jsonContent (.jarr []))
      ⟨true, true⟩ rfl rfl).2.2 [] rfl).2.2⟩

/-- C9: in both the question-submission handler and the found-response
handling of the poller, the lock release runs on every exit path — it is in
a `finally` block — including paths where lock acquisition itself failed or
an error occurred before acquisition (the unlocked create-if-absent write),
so a release can occur without a matching prior acquisition. -/
theorem claim_C9_unlock_unconditional :
    (∀ q st env, (handleQuestionSubmit q st env).unlockCalled = true)
    ∧ (∀ k q env, k < maxRetries → env.fileExists = true →
        (checkResultsStep k q env).unlockCalled = true)
    ∧ (∃ q st env, (handleQuestionSubmit q st env).lockAcquired = false
        ∧ (handleQuestionSubmit q st env).unlockCalled = true)
    ∧ (∃ k q env, (checkResultsStep k q env).lockAcquired = false
        ∧ (checkResultsStep k q env).unlockCalled = true) := by
  refine ⟨?_, ?_, ?_, ?_⟩
  · intro q st env
    obtain ⟨co, lo⟩ := env
    cases st <;> cases co <;> cases lo <;>
      first
        | rfl
        | (rename_i v
           cases v <;> rfl)
  · intro k q env hk hex
    rw [checkResultsStep, if_neg (by omega), if_pos hex]
    by_cases hlo : env.lockOk = true
    · rw [if_pos hlo]
      cases hp : env.parsed with
      | none => rfl
      | some data =>
        cases data <;>
          first
            | rfl
            | (dsimp only [getProp]
               repeat' split
               all_goals rfl)
    · rw [if_neg hlo]
  · exact ⟨chars "Q", .absent, ⟨false, false⟩, rfl, rfl⟩
  · exact ⟨0, chars "Q", ⟨true, false, none, [], []⟩, rfl, rfl⟩

/-- C9 witness: a failed pre-lock create and a failed lock acquisition both
still run the release. -/
theorem claim_C9_witness :
    (handleQuestionSubmit (chars "Q") ReqFile.absent ⟨false, true⟩).unlockCalled = true
    ∧ (checkResultsStep 0 (chars "Q") ⟨true, false, none, [], []⟩).unlockCalled = true :=
  ⟨claim_C9_unlock_unconditional.1 (chars "Q") ReqFile.absent ⟨false, true⟩,
    claim_C9_unlock_unconditional.2.1 0 (chars "Q") ⟨true, false, none, [], []⟩
      (by decide) rfl⟩

theorem checkResultsStep_exhausted (k : Nat) (q : List Char) (env : CheckEnv)
    (hk : k ≥ maxRetries) :
    checkResultsStep k q env
      = { notices := [NoticeMsg.noResults], docWrite := none, next := none,
          lockAttempted := false, lockAcquired := false,
          unlockCalled := false, unlinkCalled := false } := by
  rw [checkResultsStep, if_pos hk]

theorem checkResultsStep_waiting (k : Nat) (q : List Char) (env : CheckEnv)
    (hk : k < maxRetries) (hex : env.fileExists = false) :
    checkResultsStep k q env
      = { notices := [], docWrite := none, next := some (k + 1, retryInterval),
          lockAttempted := false, lockAcquired := false,
          unlockCalled := false, unlinkCalled := false } := by
  rw [checkResultsStep, if_neg (by omega), if_neg (by simp [hex])]

theorem runFromF_absent_props (q : List Char) (envs : Nat → CheckEnv)
    (H : ∀ k, (envs k).fileExists = false) :
    ∀ n k, k + n = maxRetries →
      (runFromF q envs (n + 1) k).length = n + 1
      ∧ ((runFromF q envs (n + 1) k).map (fun o => o.notices)).join
          = [NoticeMsg.noResults]
      ∧ (∀ o ∈ runFromF q envs (n + 1) k, o.docWrite = none)
      ∧ (∀ o ∈ runFromF q envs (n + 1) k, ∀ p, o.next = some p →
          p.2 = retryInterval)
      ∧ (∃ o, (runFromF q envs (n + 1) k).getLast? = some o ∧ o.next = none
          ∧ o.notices = [NoticeMsg.noResults]) := by
  intro n
  induction n with
  | zero =>
    intro k hk
    have hstep := checkResultsStep_exhausted k q (envs k) (by omega)
    rw [show (0 + 1 : Nat) = 1 from rfl, runFromF, hstep]
    dsimp only
    refine ⟨rfl, by simp, ?_, ?_, ⟨_, rfl, rfl, rfl⟩⟩
    · intro o ho
      simp only [List.mem_singleton] at ho
      rw [ho]
    · intro o ho p hp
      simp only [List.mem_singleton] at ho
      rw [ho] at hp
      simp at hp
  | succ n ih =>
    intro k hk
    have hstep := checkResultsStep_waiting k q (envs k) (by omega) (H k)
    rw [runFromF, hstep]
    dsimp only
    obtain ⟨ihlen, ihnot, ihdoc, ihnext, o₀, iho₀, ihn₀, ihm₀⟩ :=
      ih (k + 1) (by omega)
    refine ⟨?_, ?_, ?_, ?_, ?_⟩
    · simp only [List.length_cons, ihlen]
    · simp only [List.map_cons, List.join_cons, ihnot]
      rfl
    · intro o ho
      rcases List.mem_cons.mp ho with rfl | ho'
      · rfl
      · exact ihdoc o ho'
    · intro o ho p hp
      rcases List.mem_cons.mp ho with rfl | ho'
      · simp only at hp
        injection hp with hp'
        rw [← hp']
      · exact ihnext o ho' p hp
    · refine ⟨o₀, ?_, ihn₀, ihm₀⟩
      have hne : runFromF q envs (n + 1) (k + 1) ≠ [] := by
        intro habs
        rw [habs] at ihlen
        simp at ihlen
      obtain ⟨a, as, ha⟩ := List.exists_cons_of_ne_nil hne
      rw [ha]
      rw [ha] at iho₀
      exact (List.getLast?_cons_cons).trans iho₀

/-- C6: if the response file never appears, the polling sequence started by
`checkResults(0)` performs the maximum of 30 waiting checks, each scheduling
the next after the fixed 2000 ms delay, then terminates on the 31st call
with exactly one user-visible failure notification and no further scheduled
check, and never writes to the target document. -/
theorem claim_C6_exhaustion (q : List Char) (envs : Nat → CheckEnv)
    (H : ∀ k, (envs k).fileExists = false) :
    (runPoll q envs).length = maxRetries + 1
    ∧ ((runPoll q envs).map (fun o => o.notices)).join = [NoticeMsg.noResults]
    ∧ (∀ o ∈ runPoll q envs, o.docWrite = none)
    ∧ (∀ o ∈ runPoll q envs, ∀ p, o.next = some p → p.2 = retryInterval)
    ∧ (∃ o, (runPoll q envs).getLast? = some o ∧ o.next = none
        ∧ o.notices = [NoticeMsg.noResults]) := by
  have h := runFromF_absent_props q envs H maxRetries 0 (by omega)
  exact h

/-- C6 witness: the exhaustion run with the response file always absent. -/
theorem claim_C6_witness :
    (runPoll (chars "Q") (fun _ => ⟨false, true, none, [], []⟩)).length
      = maxRetries + 1
    ∧ ((runPoll (chars "Q") (fun _ => ⟨false, true, none, [], []⟩)).map
        (fun o => o.notices)).join = [NoticeMsg.noResults]
    ∧ (∀ o ∈ runPoll (chars "Q") (fun _ => ⟨false, true, none, [], []⟩),
        o.docWrite = none)
    ∧ (∀ o ∈ runPoll (chars "Q") (fun _ => ⟨false, true, none, [], []⟩),
        ∀ p, o.next = some p → p.2 = retryInterval)
    ∧ (∃ o, (runPoll (chars "Q")
          (fun _ => ⟨false, true, none, [], []⟩)).getLast? = some o
        ∧ o.next = none ∧ o.notices = [NoticeMsg.noResults]) :=
  claim_C6_exhaustion (chars "Q") (fun _ => ⟨false, true, none, [], []⟩)
    (fun _ => rfl)
